import Mathlib

/-!
Verification of the rate-limited HTTP client core of the wayback-machine
tool repository: the sliding-window rate limiter, the timeout-bounded
resilient fetch, and the configurable fetch facade.  Each definition is a
shallow embedding of the corresponding source function; time is modelled
as a virtual clock (an integer number of milliseconds) threaded explicitly
where the source reads the ambient clock.
-/

set_option autoImplicit false

/-- Embedding of the rate limiter class: the recorded admission timestamps
(in insertion order) together with the two construction parameters. -/
structure RateLimiter where
  requests : List Int
  maxRequests : Nat
  windowMs : Int
deriving Repr, DecidableEq

namespace RateLimiter

/-- Embedding of the private cleanup method: keeps exactly those recorded
timestamps that are strictly greater than the cutoff value, where the
cutoff is the current clock reading minus the window length. -/
def cleanup (l : RateLimiter) (now : Int) : RateLimiter :=
  { l with requests := l.requests.filter (fun time => decide (now - l.windowMs < time)) }

/-- Embedding of canMakeRequest: runs the cleanup (a state mutation in the
source, returned here as the first component) and reports whether the
number of remaining timestamps is strictly below the configured maximum. -/
def canMakeRequest (l : RateLimiter) (now : Int) : RateLimiter × Bool :=
  let l' := cleanup l now
  (l', decide (l'.requests.length < l.maxRequests))

/-- Embedding of recordRequest: appends the current clock reading to the
window. -/
def recordRequest (l : RateLimiter) (now : Int) : RateLimiter :=
  { l with requests := l.requests ++ [now] }

/-- Embedding of the waitForSlot loop body, fuelled.  One iteration checks
canMakeRequest; when blocked it reads the oldest remaining timestamp,
computes the wait time, advances the virtual clock by that wait plus the
100 ms slack when the wait is positive (the suspension), runs the trailing
cleanup, and loops.  Fuel exhaustion (`none`) models non-termination; the
empty-window blocked case (`none`) models the undefined first element read
the source would perform there. -/
def waitForSlotAux : Nat → RateLimiter → Int → Option (RateLimiter × Int)
  | 0, _, _ => none
  | fuel + 1, l, now =>
    let c := canMakeRequest l now
    if c.2 then some (c.1, now)
    else
      match c.1.requests with
      | [] => none
      | oldest :: _ =>
        let waitTime := oldest + l.windowMs - now
        let now2 := if 0 < waitTime then now + waitTime + 100 else now
        waitForSlotAux fuel (cleanup c.1 now2) now2

/-- Embedding of waitForSlot: each blocked iteration strictly shrinks the
window, so one unit of fuel per recorded timestamp plus one suffices for
every terminating run of the source loop. -/
def waitForSlot (l : RateLimiter) (now : Int) : Option (RateLimiter × Int) :=
  waitForSlotAux (l.requests.length + 1) l now

/-- The purge as the claim literally words it: drop exactly the timestamps
strictly older than now minus the window length (keep those at least
now - W).  Stated from the claim, to be compared against `cleanup`. -/
def purgeOlderThanSpec (reqs : List Int) (now w : Int) : List Int :=
  reqs.filter (fun t => decide (now - w ≤ t))

end RateLimiter

namespace RateLimiter

/-- C1 (counterexample): at the window boundary the code and the claim
disagree.  With maxRequests 1, windowMs 10, one admission recorded at
time 0 and the clock at 10, the code purges the timestamp 0 (it is not
strictly greater than the cutoff 0) and returns true, while the claim's
purge keeps every timestamp not strictly older than now - W, so it keeps 0
and would report false (1 remaining is not below 1). -/
theorem canMakeRequest_boundary_counterexample :
    (canMakeRequest ⟨[0], 1, 10⟩ 10).2 = true ∧
    ¬ ((purgeOlderThanSpec [0] 10 10).length < 1) := by
  exact ⟨by decide, by decide⟩

/-- C1 (amended): canMakeRequest purges exactly the timestamps that are at
least one whole window old (t ≤ now - W), leaves the configuration fields
untouched (no side effect beyond the purge), and returns true exactly when
the remaining count is strictly below maxRequests; consequently it returns
true on an empty window with positive capacity, and false once exactly
maxRequests admissions lie strictly inside the current window. -/
theorem canMakeRequest_purges_at_least_window_old (l : RateLimiter) (now : Int) :
    ((canMakeRequest l now).1.requests
        = l.requests.filter (fun t => !decide (t ≤ now - l.windowMs))) ∧
    (canMakeRequest l now).1.maxRequests = l.maxRequests ∧
    (canMakeRequest l now).1.windowMs = l.windowMs ∧
    ((canMakeRequest l now).2 = true ↔
      (canMakeRequest l now).1.requests.length < l.maxRequests) ∧
    (∀ x ∈ (canMakeRequest l now).1.requests, now - l.windowMs < x) ∧
    (l.requests = [] → 0 < l.maxRequests → (canMakeRequest l now).2 = true) ∧
    (l.requests.length = l.maxRequests →
      (∀ x ∈ l.requests, now - l.windowMs < x) →
      (canMakeRequest l now).2 = false) := by
  refine ⟨?_, rfl, rfl, ?_, ?_, ?_, ?_⟩
  · refine List.filter_congr (fun a _ => ?_)
    simp [← decide_not, decide_eq_decide, not_le]
  · simp [canMakeRequest]
  · intro x hx
    have hx' := List.of_mem_filter hx
    simpa using hx'
  · intro h hmax
    simp [canMakeRequest, cleanup, h, hmax]
  · intro hlen hin
    have hfix : l.requests.filter (fun t => decide (now - l.windowMs < t)) = l.requests :=
      List.filter_eq_self.mpr (fun a ha => by simpa using hin a ha)
    simp [canMakeRequest, cleanup, hfix, hlen]

/-- C1 (witness for the amended theorem): a limiter of capacity 3 with an
empty window admits at clock 0, and the purge equation holds at the
boundary input. -/
theorem canMakeRequest_purges_at_least_window_old_witness :
    (canMakeRequest ⟨[], 3, 1000⟩ 0).2 = true ∧
    (canMakeRequest ⟨[0], 1, 10⟩ 10).1.requests
      = ([0] : List Int).filter (fun t => !decide (t ≤ (10 : Int) - 10)) := by
  exact ⟨(canMakeRequest_purges_at_least_window_old ⟨[], 3, 1000⟩ 0).2.2.2.2.2.1
      rfl (by decide),
    (canMakeRequest_purges_at_least_window_old ⟨[0], 1, 10⟩ 10).1⟩

end RateLimiter

namespace RateLimiter

/-- One waitForSlot-then-recordRequest pair issued back-to-back: the
record appends the clock reading at which the wait returned (the caller
performs both with no intervening delay). -/
def waitRecordPair (l : RateLimiter) (now : Int) : Option (RateLimiter × Int) :=
  match waitForSlot l now with
  | none => none
  | some (l', t') => some (recordRequest l' t', t')

/-- A sequence of back-to-back pairs, threading the limiter state and the
virtual clock; the clock only advances inside waitForSlot suspensions. -/
def runPairs : Nat → RateLimiter → Int → Option (RateLimiter × Int)
  | 0, l, now => some (l, now)
  | k + 1, l, now =>
    match waitRecordPair l now with
    | none => none
    | some (l', now') => runPairs k l' now'

theorem filter_keep_replicate (j : Nat) (t0 w : Int) (hw : 0 < w) :
    (List.replicate j t0).filter (fun time => decide (t0 - w < time))
      = List.replicate j t0 := by
  refine List.filter_eq_self.mpr (fun a ha => ?_)
  have h2 : t0 - w < t0 := by omega
  rw [List.eq_of_mem_replicate ha]
  simpa using h2

theorem canMakeRequest_replicate (n j : Nat) (w t0 : Int) (hw : 0 < w) :
    canMakeRequest ⟨List.replicate j t0, n, w⟩ t0
      = (⟨List.replicate j t0, n, w⟩, decide (j < n)) := by
  simp [canMakeRequest, cleanup, filter_keep_replicate j t0 w hw]

theorem waitForSlot_replicate_open (n j : Nat) (w t0 : Int) (hw : 0 < w)
    (hjn : j < n) :
    waitForSlot ⟨List.replicate j t0, n, w⟩ t0
      = some (⟨List.replicate j t0, n, w⟩, t0) := by
  unfold waitForSlot
  simp [waitForSlotAux, canMakeRequest_replicate n j w t0 hw, hjn]

theorem cleanup_replicate (n j : Nat) (w t0 : Int) (hw : 0 < w) :
    cleanup ⟨List.replicate j t0, n, w⟩ t0 = ⟨List.replicate j t0, n, w⟩ := by
  simp [cleanup, filter_keep_replicate j t0 w hw]

theorem waitForSlotAux_pass (fuel : Nat) (l : RateLimiter) (now : Int)
    (h : (cleanup l now).requests.length < l.maxRequests) :
    waitForSlotAux (fuel + 1) l now = some (cleanup l now, now) := by
  rw [waitForSlotAux]
  simp [canMakeRequest, h]

theorem waitForSlotAux_blocked (fuel : Nat) (l : RateLimiter) (now : Int)
    (hf : ¬ (cleanup l now).requests.length < l.maxRequests)
    (oldest : Int) (rest : List Int)
    (hreq : (cleanup l now).requests = oldest :: rest)
    (hpos : 0 < oldest + l.windowMs - now) :
    waitForSlotAux (fuel + 1) l now
      = waitForSlotAux fuel
          (cleanup (cleanup l now) (now + (oldest + l.windowMs - now) + 100))
          (now + (oldest + l.windowMs - now) + 100) := by
  rw [waitForSlotAux]
  simp only [canMakeRequest, hf, decide_False, Bool.false_eq_true, if_false,
    hreq, if_pos hpos]
  have hlen : (oldest :: rest).length = (l.cleanup now).requests.length := by
    rw [hreq]
  rw [hlen]
  simp [hf]

theorem waitForSlot_replicate_full (m : Nat) (w t0 : Int) (hw : 0 < w) :
    waitForSlot ⟨List.replicate (m + 1) t0, m + 1, w⟩ t0
      = some (⟨[], m + 1, w⟩, t0 + w + 100) := by
  have hcl := cleanup_replicate (m + 1) (m + 1) w t0 hw
  have hempty : cleanup ⟨List.replicate (m + 1) t0, m + 1, w⟩
      (t0 + (t0 + w - t0) + 100) = ⟨[], m + 1, w⟩ := by
    simp only [cleanup]
    congr 1
    refine List.filter_eq_nil_iff.mpr (fun a ha => ?_)
    rw [List.eq_of_mem_replicate ha]
    simp
    omega
  unfold waitForSlot
  simp only [List.length_replicate]
  rw [waitForSlotAux_blocked (m + 1) _ t0 (by rw [hcl]; simp) t0
      (List.replicate m t0) (by rw [hcl]; simp [List.replicate_succ])
      (by simp; omega)]
  rw [hcl, hempty]
  rw [waitForSlotAux_pass m _ _ (by simp [cleanup])]
  have h3 : t0 + (t0 + w - t0) + 100 = t0 + w + 100 := by ring
  rw [h3]
  simp [cleanup]

end RateLimiter

namespace RateLimiter

theorem waitRecordPair_replicate (n j : Nat) (w t0 : Int) (hw : 0 < w)
    (hjn : j < n) :
    waitRecordPair ⟨List.replicate j t0, n, w⟩ t0
      = some (⟨List.replicate (j + 1) t0, n, w⟩, t0) := by
  simp only [waitRecordPair, waitForSlot_replicate_open n j w t0 hw hjn,
    recordRequest]
  rw [List.replicate_succ']

theorem runPairs_fill (n : Nat) (w t0 : Int) (hw : 0 < w) :
    ∀ k j, j + k ≤ n →
      runPairs k ⟨List.replicate j t0, n, w⟩ t0
        = some (⟨List.replicate (j + k) t0, n, w⟩, t0) := by
  intro k
  induction k with
  | zero => intro j h; simp [runPairs]
  | succ k ih =>
    intro j h
    have hjn : j < n := by omega
    have harr : j + 1 + k = j + (k + 1) := by omega
    simp only [runPairs, waitRecordPair_replicate n j w t0 hw hjn]
    rw [ih (j + 1) (by omega), harr]

theorem runPairs_add (a b : Nat) (l : RateLimiter) (now : Int) :
    runPairs (a + b) l now
      = (runPairs a l now).bind (fun s => runPairs b s.1 s.2) := by
  induction a generalizing l now with
  | zero => simp [runPairs]
  | succ a ih =>
    rw [show a + 1 + b = (a + b) + 1 from by omega]
    cases hp : waitRecordPair l now with
    | none => simp [runPairs, hp]
    | some s => simp [runPairs, hp, ih]

/-- C2: on a limiter for n admissions per w milliseconds, n+1 back-to-back
waitForSlot/recordRequest pairs starting on an empty window at clock t0
admit the first pair immediately at t0, and the final pair completes only
at clock t0 + w + 100 (the blocked wait computes oldest + w - now = w and
suspends for that wait plus the 100 ms slack), which is no earlier than w
milliseconds after the first admission. -/
theorem runPairs_blocks_until_window (n : Nat) (w t0 : Int) (hn : 1 ≤ n)
    (hw : 0 < w) :
    (runPairs 1 ⟨[], n, w⟩ t0).map Prod.snd = some t0 ∧
    runPairs (n + 1) ⟨[], n, w⟩ t0
      = some (⟨[t0 + w + 100], n, w⟩, t0 + w + 100) ∧
    t0 + w ≤ t0 + w + 100 := by
  obtain ⟨m, rfl⟩ : ∃ m, n = m + 1 := ⟨n - 1, by omega⟩
  have hfill := runPairs_fill (m + 1) w t0 hw
  refine ⟨?_, ?_, by omega⟩
  · have h1 := hfill 1 0 (by omega)
    simp only [List.replicate_zero, Nat.zero_add] at h1
    rw [h1]
    rfl
  · have h2 := hfill (m + 1) 0 (by omega)
    simp only [List.replicate_zero, Nat.zero_add] at h2
    rw [runPairs_add (m + 1) 1, h2]
    simp [runPairs, waitRecordPair, waitForSlot_replicate_full m w t0 hw,
      recordRequest]

/-- C2 (witness): with 2 admissions per 1000 ms starting at clock 0, the
third pair completes at clock 1100, at least 1000 ms after the first. -/
theorem runPairs_blocks_until_window_witness :
    (runPairs 1 ⟨[], 2, 1000⟩ 0).map Prod.snd = some 0 ∧
    runPairs 3 ⟨[], 2, 1000⟩ 0 = some (⟨[1100], 2, 1000⟩, 1100) ∧
    (0 : Int) + 1000 ≤ 0 + 1000 + 100 := by
  have h := runPairs_blocks_until_window 2 1000 0 (by omega) (by omega)
  simpa using h

end RateLimiter

namespace RateLimiter

/-- The observable operations of the limiter, each tagged with the ambient
clock reading at which it runs; Date.now() is monotone, so each operation
runs at a clock no earlier than the previous one.  The second component of
a state is the latest observed clock reading. -/
inductive Step : RateLimiter × Int → RateLimiter × Int → Prop
  | check (l : RateLimiter) (now t : Int) (h : now ≤ t) :
      Step (l, now) ((canMakeRequest l t).1, t)
  | record (l : RateLimiter) (now t : Int) (h : now ≤ t) :
      Step (l, now) (recordRequest l t, t)
  | wait (l : RateLimiter) (now t : Int) (l' : RateLimiter) (t' : Int)
      (h : now ≤ t) (hws : waitForSlot l t = some (l', t')) :
      Step (l, now) (l', t')

/-- States reachable by any interleaving of the three operations. -/
abbrev Reachable (init s : RateLimiter × Int) : Prop :=
  Relation.ReflTransGen Step init s

/-- The window invariant: timestamps are sorted in non-decreasing order
and none is in the future of the last observed clock reading. -/
def WindowInv (s : RateLimiter × Int) : Prop :=
  s.1.requests.Sorted (· ≤ ·) ∧ ∀ x ∈ s.1.requests, x ≤ s.2

theorem windowInv_mono {l : RateLimiter} {now t : Int}
    (h : WindowInv (l, now)) (hle : now ≤ t) : WindowInv (l, t) :=
  ⟨h.1, fun x hx => le_trans (h.2 x hx) hle⟩

theorem windowInv_cleanup {l : RateLimiter} {now : Int} (t : Int)
    (h : WindowInv (l, now)) (hle : now ≤ t) :
    WindowInv (cleanup l t, t) := by
  refine ⟨List.Pairwise.filter _ h.1, fun x hx => ?_⟩
  have hx' := List.mem_of_mem_filter hx
  exact le_trans (h.2 x hx') hle

theorem windowInv_record {l : RateLimiter} {now : Int} (t : Int)
    (h : WindowInv (l, now)) (hle : now ≤ t) :
    WindowInv (recordRequest l t, t) := by
  constructor
  · refine List.pairwise_append.mpr ⟨h.1, List.pairwise_singleton _ _, ?_⟩
    intro x hx y hy
    rw [List.mem_singleton] at hy
    subst hy
    exact le_trans (h.2 x hx) hle
  · intro x hx
    rcases List.mem_append.mp hx with hx | hx
    · exact le_trans (h.2 x hx) hle
    · rw [List.mem_singleton] at hx
      omega

theorem waitForSlotAux_inv :
    ∀ (fuel : Nat) (l : RateLimiter) (now : Int) (l' : RateLimiter) (t' : Int),
      waitForSlotAux fuel l now = some (l', t') →
      WindowInv (l, now) →
      WindowInv (l', t') ∧ now ≤ t' := by
  intro fuel
  induction fuel with
  | zero => intro l now l' t' hsome; exact absurd hsome (by simp [waitForSlotAux])
  | succ fuel ih =>
    intro l now l' t' hsome hinv
    rw [waitForSlotAux] at hsome
    simp only [canMakeRequest] at hsome
    split at hsome
    · rename_i hcond
      obtain ⟨rfl, rfl⟩ : cleanup l now = l' ∧ now = t' := by
        constructor <;> [exact congrArg Prod.fst (Option.some.inj hsome);
          exact congrArg Prod.snd (Option.some.inj hsome)]
      exact ⟨windowInv_cleanup now hinv le_rfl, le_rfl⟩
    · split at hsome
      · exact absurd hsome (by simp)
      · rename_i hreq
        split at hsome
        · rename_i hpos
          have hstep := ih _ _ _ _ hsome
            (windowInv_cleanup _ (windowInv_cleanup now hinv le_rfl) (by omega))
          exact ⟨hstep.1, by omega⟩
        · have hstep := ih _ _ _ _ hsome
            (windowInv_cleanup _ (windowInv_cleanup now hinv le_rfl) le_rfl)
          exact ⟨hstep.1, hstep.2⟩

theorem windowInv_step {a b : RateLimiter × Int} (hstep : Step a b)
    (h : WindowInv a) : WindowInv b := by
  cases hstep with
  | check l now t hle => exact windowInv_cleanup t h hle
  | record l now t hle => exact windowInv_record t h hle
  | wait l now t l' t' hle hws =>
    exact (waitForSlotAux_inv _ _ _ _ _ hws (windowInv_mono h hle)).1

theorem sorted_filter_eq_dropWhile (c : Int) :
    ∀ xs : List Int, xs.Sorted (· ≤ ·) →
      xs.filter (fun t => decide (c < t))
        = xs.dropWhile (fun t => decide (t ≤ c)) := by
  intro xs
  induction xs with
  | nil => simp
  | cons x xs ih =>
    intro hs
    have hcons := List.pairwise_cons.mp hs
    by_cases hx : x ≤ c
    · rw [List.filter_cons, List.dropWhile_cons]
      simp only [not_lt.mpr hx, decide_False, hx, decide_True, if_true,
        Bool.false_eq_true, if_false]
      exact ih hcons.2
    · have hall : ∀ y ∈ xs, c < y :=
        fun y hy => lt_of_lt_of_le (not_le.mp hx) (hcons.1 y hy)
      rw [List.filter_cons, List.dropWhile_cons]
      simp only [not_le.mp hx, decide_True, hx, decide_False, if_true,
        Bool.false_eq_true, if_false]
      rw [List.filter_eq_self.mpr (fun a ha => by simpa using hall a ha)]

/-- C10: in every state reachable by any interleaving of canMakeRequest,
waitForSlot and recordRequest under a monotone clock, the recorded window
is sorted in non-decreasing order, contains no timestamp later than the
last observed clock reading, and the purge at any clock value removes
exactly a prefix of the (sorted) window, preserving the relative order of
the suffix it keeps. -/
theorem window_invariant (n : Nat) (w t0 : Int) (s : RateLimiter × Int)
    (h : Reachable (⟨[], n, w⟩, t0) s) :
    s.1.requests.Sorted (· ≤ ·) ∧
    (∀ x ∈ s.1.requests, x ≤ s.2) ∧
    (∀ t : Int, (cleanup s.1 t).requests
        = s.1.requests.dropWhile (fun x => decide (x ≤ t - s.1.windowMs))) := by
  have hinv : WindowInv s := by
    induction h with
    | refl => exact ⟨List.sorted_nil, by simp⟩
    | tail hr hstep ih => exact windowInv_step hstep ih
  exact ⟨hinv.1, hinv.2,
    fun t => sorted_filter_eq_dropWhile (t - s.1.windowMs) _ hinv.1⟩

/-- C10 (witness): after recording admissions at clocks 3 and then 4
starting from an empty limiter at clock 0, the reached window [3, 4] is
sorted and bounded by the clock, and its purge is a prefix drop. -/
theorem window_invariant_witness :
    (⟨[3, 4], 5, 10⟩ : RateLimiter).requests.Sorted (· ≤ ·) ∧
    (∀ x ∈ (⟨[3, 4], 5, 10⟩ : RateLimiter).requests, x ≤ (4 : Int)) := by
  have hreach : Reachable (⟨[], 5, 10⟩, 0) (⟨[3, 4], 5, 10⟩, 4) :=
    Relation.ReflTransGen.tail
      (Relation.ReflTransGen.tail Relation.ReflTransGen.refl
        (Step.record ⟨[], 5, 10⟩ 0 3 (by omega)))
      (Step.record ⟨[3], 5, 10⟩ 3 4 (by omega))
  have h := window_invariant 5 10 0 (⟨[3, 4], 5, 10⟩, 4) hreach
  exact ⟨h.1, h.2.1⟩

end RateLimiter

namespace Http

/-- Model of the platform response as far as fetchWithTimeout inspects it:
the numeric status, the status text, and the body read, which either
succeeds with the text or fails (none), in which case the catch handler
substitutes the empty string. -/
structure Response where
  status : Int
  statusText : String
  bodyText : Option String
deriving Repr, DecidableEq

/-- The ok flag of the platform response: status in the inclusive range
200 to 299. -/
def Response.ok (r : Response) : Bool :=
  decide (200 ≤ r.status) && decide (r.status ≤ 299)

/-- Embedding of the HttpError class: a message plus the optional numeric
status and optional response body text. -/
structure HttpError where
  message : String
  status : Option Int
  response : Option String
deriving Repr, DecidableEq

/-- What a failing fetchWithTimeout call throws: either an HttpError it
constructed itself, or the original error rethrown unchanged (recorded by
its name and message). -/
inductive ThrownError
  | httpError (e : HttpError)
  | rawError (name message : String)
deriving Repr, DecidableEq

/-- How the race between the underlying fetch and the timeout timer can
end: the response completes before the timer fires; the timer fires first,
so the abort signal cancels the in-flight request and the fetch rejects
with an error named AbortError (timedOut); the transport fails before the
timer with an Error carrying a name and a message; or the fetch rejects
with a non-Error value. -/
inductive FetchOutcome
  | completes (r : Response)
  | timedOut
  | transportFails (name message : String)
  | rejectsNonError
deriving Repr, DecidableEq

/-- Embedding of fetchWithTimeout over the outcome of the race.  The
timeout defaults to 30000 ms when omitted.  A non-2xx response raises an
HttpError carrying the status and the best-effort body text (empty string
when the body read fails).  An abort (the timer fired) is caught by the
name AbortError and becomes the timeout HttpError carrying the configured
duration.  Any other Error instance is rethrown unchanged.  A non-Error
rejection becomes the generic network HttpError. -/
def fetchWithTimeout (timeoutOpt : Option Int) (outcome : FetchOutcome) :
    Except ThrownError Response :=
  let timeout := timeoutOpt.getD 30000
  match outcome with
  | .completes r =>
    if r.ok then .ok r
    else .error (.httpError
      ⟨"HTTP " ++ toString r.status ++ ": " ++ r.statusText,
        some r.status, some (r.bodyText.getD "")⟩)
  | .timedOut =>
    .error (.httpError
      ⟨"Request timeout after " ++ toString timeout ++ "ms", none, none⟩)
  | .transportFails name message =>
    if name = "AbortError" then
      .error (.httpError
        ⟨"Request timeout after " ++ toString timeout ++ "ms", none, none⟩)
    else .error (.rawError name message)
  | .rejectsNonError =>
    .error (.httpError ⟨"Network error occurred", none, none⟩)

/-- C3: when the timeout elapses before the underlying request completes,
the abort signal has cancelled the in-flight request (the timedOut
outcome) and the call fails with the timeout HttpError carrying the
configured duration, defaulting to 30000 ms when no timeout was given; it
does not return a response. -/
theorem fetchWithTimeout_timeout (timeoutOpt : Option Int) :
    fetchWithTimeout timeoutOpt FetchOutcome.timedOut
      = Except.error (ThrownError.httpError
          ⟨"Request timeout after " ++ toString (timeoutOpt.getD 30000) ++ "ms",
            none, none⟩) := rfl

/-- C3 (witness): with the timeout omitted, the failure carries the
default duration of 30000 ms. -/
theorem fetchWithTimeout_timeout_witness :
    fetchWithTimeout none FetchOutcome.timedOut
      = Except.error (ThrownError.httpError
          ⟨"Request timeout after 30000ms", none, none⟩) := by
  rw [fetchWithTimeout_timeout none]
  rfl

/-- C4: a completed response with a non-2xx status makes the call fail
with an HttpError carrying exactly that status and the best-effort body
text, defaulting to the empty string when the body read failed. -/
theorem fetchWithTimeout_http_status (timeoutOpt : Option Int) (r : Response)
    (h : ¬ (200 ≤ r.status ∧ r.status ≤ 299)) :
    fetchWithTimeout timeoutOpt (FetchOutcome.completes r)
      = Except.error (ThrownError.httpError
          ⟨"HTTP " ++ toString r.status ++ ": " ++ r.statusText,
            some r.status, some (r.bodyText.getD "")⟩) := by
  have hok : r.ok = false := by
    rcases Bool.eq_false_or_eq_true r.ok with h' | h'
    · exact absurd (by simpa [Response.ok] using h') h
    · exact h'
  simp [fetchWithTimeout, hok]

/-- C4 (witness): a 404 whose body read fails carries status 404 and the
empty body, and a 500 with a readable body carries status 500 and that
body. -/
theorem fetchWithTimeout_http_status_witness :
    fetchWithTimeout none (FetchOutcome.completes ⟨404, "Not Found", none⟩)
      = Except.error (ThrownError.httpError
          ⟨"HTTP " ++ toString (404 : Int) ++ ": " ++ "Not Found",
            some 404, some ""⟩) ∧
    fetchWithTimeout (some 5000)
        (FetchOutcome.completes ⟨500, "Internal Server Error", some "boom"⟩)
      = Except.error (ThrownError.httpError
          ⟨"HTTP " ++ toString (500 : Int) ++ ": " ++ "Internal Server Error",
            some 500, some "boom"⟩) := by
  exact ⟨fetchWithTimeout_http_status none ⟨404, "Not Found", none⟩ (by decide),
    fetchWithTimeout_http_status (some 5000)
      ⟨500, "Internal Server Error", some "boom"⟩ (by decide)⟩

/-- C5: a transport failure before the timeout (an Error whose name is not
AbortError) makes the call fail with the transport-failure member of the
error taxonomy: the original error, propagated with its underlying name
and message intact. -/
theorem fetchWithTimeout_transport (timeoutOpt : Option Int)
    (name message : String) (h : name ≠ "AbortError") :
    fetchWithTimeout timeoutOpt (FetchOutcome.transportFails name message)
      = Except.error (ThrownError.rawError name message) := by
  simp [fetchWithTimeout, h]

/-- C5 (witness): a DNS-style failure (TypeError with the message the
platform uses for connection failures) fails with that same name and
message. -/
theorem fetchWithTimeout_transport_witness :
    fetchWithTimeout none (FetchOutcome.transportFails "TypeError" "fetch failed")
      = Except.error (ThrownError.rawError "TypeError" "fetch failed") :=
  fetchWithTimeout_transport none "TypeError" "fetch failed" (by decide)

end Http

/-- The fetch backends the facade can select. -/
inductive FetchBackend
  | builtIn
  | cacheMemory
  | cacheDisk
deriving Repr, DecidableEq

/-- The resolved facade configuration after schema validation: every field
present, with userAgent genuinely optional.  A header record is modelled
as its ordered list of key-value entries (a JS object has unique keys; the
entry list is how every normalization below consumes it). -/
structure FetchConfig where
  backend : FetchBackend
  cacheTtl : Int
  cacheDir : String
  maxCacheSize : Int
  userAgent : Option String
  defaultHeaders : List (String × String)
deriving Repr, DecidableEq

/-- A configuration update (the TypeScript Partial of FetchConfig): each
field either absent or supplied. -/
structure FetchConfigUpdate where
  backend : Option FetchBackend := none
  cacheTtl : Option Int := none
  cacheDir : Option String := none
  maxCacheSize : Option Int := none
  userAgent : Option String := none
  defaultHeaders : Option (List (String × String)) := none
deriving Repr, DecidableEq

/-- Embedding of the zod schema FetchConfigSchema as its parse function:
backend is required; cacheTtl and maxCacheSize must be positive when
supplied and default to 300000 and 104857600; cacheDir defaults to
.cache; userAgent stays optional; defaultHeaders defaults to the empty
record.  An invalid input makes parse throw, modelled as the error case
carrying the validation message. -/
def FetchConfigSchema.parse (raw : FetchConfigUpdate) :
    Except String FetchConfig :=
  match raw.backend with
  | none => Except.error "backend: Required"
  | some b =>
    let ttl := raw.cacheTtl.getD 300000
    let size := raw.maxCacheSize.getD 104857600
    if ttl ≤ 0 then Except.error "cacheTtl: Number must be greater than 0"
    else if size ≤ 0 then
      Except.error "maxCacheSize: Number must be greater than 0"
    else Except.ok
      ⟨b, ttl, raw.cacheDir.getD ".cache", size, raw.userAgent,
        raw.defaultHeaders.getD []⟩

/-- A resolved configuration viewed as the raw object the source spreads
into the schema when merging (every field present). -/
def FetchConfig.toRaw (c : FetchConfig) : FetchConfigUpdate :=
  ⟨some c.backend, some c.cacheTtl, some c.cacheDir, some c.maxCacheSize,
    c.userAgent, some c.defaultHeaders⟩

/-- The object spread of two raw configurations: a field supplied by the
update shadows the one of the base. -/
def mergeRaw (base upd : FetchConfigUpdate) : FetchConfigUpdate :=
  ⟨upd.backend <|> base.backend, upd.cacheTtl <|> base.cacheTtl,
    upd.cacheDir <|> base.cacheDir, upd.maxCacheSize <|> base.maxCacheSize,
    upd.userAgent <|> base.userAgent,
    upd.defaultHeaders <|> base.defaultHeaders⟩

/-- Embedding of the ConfigurableFetch instance state: the validated
configuration and whether each cache backend initialized (the source
marks a backend unavailable by leaving its field unset). -/
structure ConfigurableFetch where
  config : FetchConfig
  memoryCacheAvailable : Bool
  diskCacheAvailable : Bool
deriving Repr, DecidableEq

/-- Assigning one key into a header record built as an ordered entry list:
an existing key keeps its position and gets the new value, a new key is
appended.  This is exactly how a JS object assignment behaves, and it is
the single primitive all three request-header shapes reduce to. -/
def setKey : List (String × String) → String → String → List (String × String)
  | [], k, v => [(k, v)]
  | p :: ps, k, v => if p.1 = k then (k, v) :: ps else p :: setKey ps k v

/-- Assigning a list of entries left to right (Headers.forEach, the array
iteration and Object.assign all traverse their entries in order). -/
def setAll (m : List (String × String)) (entries : List (String × String)) :
    List (String × String) :=
  entries.foldl (fun acc p => setKey acc p.1 p.2) m

/-- The three shapes a caller can pass as request headers, each carrying
its ordered entries: a Headers object (as the entries its forEach yields),
an array of key-value pairs, or a plain record. -/
inductive HeadersInput
  | headersObj (entries : List (String × String))
  | arrayForm (entries : List (String × String))
  | recordForm (entries : List (String × String))
deriving Repr, DecidableEq

/-- The entries a headers input carries. -/
def HeadersInput.entries : HeadersInput → List (String × String)
  | .headersObj es => es
  | .arrayForm es => es
  | .recordForm es => es

/-- Reading a key of a header record (first entry with that key; records
built by setKey never hold a key twice). -/
def getVal (m : List (String × String)) (k : String) : Option String :=
  (m.find? (fun p => decide (p.1 = k))).map Prod.snd

/-- The last value a key receives in an entry list (a later entry shadows
an earlier one), which is what assigning the entries in order leaves
behind for that key. -/
def lastVal : List (String × String) → String → Option String
  | [], _ => none
  | e :: es, k =>
    match lastVal es k with
    | some v => some v
    | none => if e.1 = k then some e.2 else none

namespace ConfigurableFetch

/-- Embedding of mergeHeaders: start from a copy of the configured default
headers, assign the configured user agent under the User-Agent key when
present, then assign every request-header entry in order, whichever of the
three shapes it arrives in. -/
def mergeHeaders (cf : ConfigurableFetch)
    (requestHeaders : Option HeadersInput) : List (String × String) :=
  let headers := cf.config.defaultHeaders
  let headers :=
    match cf.config.userAgent with
    | some ua => setKey headers "User-Agent" ua
    | none => headers
  match requestHeaders with
  | none => headers
  | some (.headersObj es) => setAll headers es
  | some (.arrayForm es) => setAll headers es
  | some (.recordForm es) => setAll headers es

/-- Embedding of updateConfig: parse the spread of the current
configuration with the update; only a successful parse is assigned back,
a failed parse throws (the carried message) and leaves the configuration
as it was.  Re-running the cache initialization does not change the
availability flags (the source always reassigns the same library
reference). -/
def updateConfig (cf : ConfigurableFetch) (newConfig : FetchConfigUpdate) :
    ConfigurableFetch × Option String :=
  match FetchConfigSchema.parse (mergeRaw cf.config.toRaw newConfig) with
  | .ok c => ({ cf with config := c }, none)
  | .error e => (cf, some e)

end ConfigurableFetch

/-- The concrete fetch functions getFetchFunction can hand back. -/
inductive FetchFn
  | builtInFetch
  | memoryCacheFetch
  | diskCacheFetch
deriving Repr, DecidableEq

namespace ConfigurableFetch

/-- Embedding of getFetchFunction: the built-in backend always yields the
platform fetch; a cached backend yields its cache when it initialized and
otherwise falls back to the platform fetch with a warning.  (The throwing
default branch of the source switch is unreachable on the closed enum.) -/
def getFetchFunction (cf : ConfigurableFetch) : FetchBackend → FetchFn
  | .builtIn => .builtInFetch
  | .cacheMemory =>
    if cf.memoryCacheAvailable then .memoryCacheFetch else .builtInFetch
  | .cacheDisk =>
    if cf.diskCacheAvailable then .diskCacheFetch else .builtInFetch

end ConfigurableFetch

/-- The per-call options the dispatch inspects: an optional backend
override and the cache-bypass flag (absent means false). -/
structure RequestOptions where
  backend : Option FetchBackend := none
  noCache : Bool := false
deriving Repr, DecidableEq

/-- What one facade fetch call did: which underlying fetch function it
invoked, and whether the response it returns to the caller is the clone
it made of the backend's response (the bypass path returns the backend's
response itself). -/
structure FetchCallResult where
  invoked : FetchFn
  returnsClone : Bool
deriving Repr, DecidableEq

namespace ConfigurableFetch

/-- Embedding of the dispatch inside fetch: the effective backend is the
per-call override or else the configured one; a cache-bypass request on a
cached backend invokes the built-in fetch function for this call only and
returns its response directly, every other call invokes the selected
function and returns a clone of its response.  The instance state is
returned unchanged: fetch never writes the configuration. -/
def fetchDispatch (cf : ConfigurableFetch) (options : RequestOptions) :
    FetchCallResult × ConfigurableFetch :=
  let backend := options.backend.getD cf.config.backend
  if options.noCache = true ∧
      (backend = FetchBackend.cacheMemory ∨ backend = FetchBackend.cacheDisk) then
    (⟨cf.getFetchFunction FetchBackend.builtIn, false⟩, cf)
  else
    (⟨cf.getFetchFunction backend, true⟩, cf)

end ConfigurableFetch

/-- Modelled from the environment the facade runs in: the caching fetch
functions retain a reference to the response they hand back (the cache
stores it for reuse), the built-in fetch hands the caller the only
reference to a fresh response. -/
def FetchFn.retainsResponse : FetchFn → Bool
  | .builtInFetch => false
  | .memoryCacheFetch => true
  | .diskCacheFetch => true

/-- A caller can safely read the returned response exactly once: either it
received its own duplicate, or no second internal holder of that response
exists. -/
def safelyReadableOnce (r : FetchCallResult) : Prop :=
  r.returnsClone = true ∨ r.invoked.retainsResponse = false

theorem getVal_setKey (m : List (String × String)) (k' v k : String) :
    getVal (setKey m k' v) k = if k' = k then some v else getVal m k := by
  induction m with
  | nil =>
    by_cases h : k' = k <;> simp [setKey, getVal, List.find?, h]
  | cons p ps ih =>
    by_cases h1 : p.1 = k'
    · rw [setKey, if_pos h1]
      by_cases h2 : k' = k
      · subst h2; simp [getVal, List.find?, h1]
      · have h3 : ¬ p.1 = k := fun he => h2 (h1 ▸ he)
        simp [getVal, List.find?, h2, h3]
    · rw [setKey, if_neg h1]
      by_cases h2 : p.1 = k
      · have h3 : ¬ k' = k := fun he => h1 (h2.trans he.symm)
        simp [getVal, List.find?, h2, h3]
      · simp only [getVal, List.find?] at ih ⊢
        simp only [h2, decide_False]
        exact ih

theorem getVal_setAll (k : String) :
    ∀ (entries m : List (String × String)),
      getVal (setAll m entries) k
        = match lastVal entries k with
          | some v => some v
          | none => getVal m k := by
  intro entries
  induction entries with
  | nil => intro m; simp [setAll, lastVal]
  | cons e es ih =>
    intro m
    have h1 : setAll m (e :: es) = setAll (setKey m e.1 e.2) es := by
      simp [setAll]
    rw [h1, ih (setKey m e.1 e.2), getVal_setKey]
    simp only [lastVal]
    cases lastVal es k with
    | some v => rfl
    | none => by_cases h : e.1 = k <;> simp [h]

theorem mergeHeaders_eq_setAll (cf : ConfigurableFetch) (hi : HeadersInput) :
    cf.mergeHeaders (some hi)
      = setAll
          (match cf.config.userAgent with
            | some ua => setKey cf.config.defaultHeaders "User-Agent" ua
            | none => cf.config.defaultHeaders)
          hi.entries := by
  cases hi <;> rfl

/-- C6: per-call header entries always win on a colliding key (whichever of
the three header shapes they arrive in); a key they do not touch falls to
the configured user agent when it is the User-Agent key, and otherwise to
the configured default headers; and on the claim's concrete example
(default X-A 1, user agent UA1, per-call X-A 2 and User-Agent UA2) the
merge yields exactly X-A 2 and User-Agent UA2. -/
theorem mergeHeaders_precedence :
    (∀ (cf : ConfigurableFetch) (hi : HeadersInput) (k v : String),
        lastVal hi.entries k = some v →
        getVal (cf.mergeHeaders (some hi)) k = some v) ∧
    (∀ (cf : ConfigurableFetch) (hi : HeadersInput) (u : String),
        lastVal hi.entries "User-Agent" = none →
        cf.config.userAgent = some u →
        getVal (cf.mergeHeaders (some hi)) "User-Agent" = some u) ∧
    (∀ (cf : ConfigurableFetch) (hi : HeadersInput) (k : String),
        lastVal hi.entries k = none →
        (k = "User-Agent" → cf.config.userAgent = none) →
        getVal (cf.mergeHeaders (some hi)) k
          = getVal cf.config.defaultHeaders k) ∧
    ConfigurableFetch.mergeHeaders
        ⟨⟨FetchBackend.builtIn, 300000, ".cache", 104857600, some "UA1",
            [("X-A", "1")]⟩, true, true⟩
        (some (HeadersInput.recordForm [("X-A", "2"), ("User-Agent", "UA2")]))
      = [("X-A", "2"), ("User-Agent", "UA2")] := by
  refine ⟨?_, ?_, ?_, ?_⟩
  · intro cf hi k v h
    rw [mergeHeaders_eq_setAll, getVal_setAll, h]
  · intro cf hi u h hua
    rw [mergeHeaders_eq_setAll, getVal_setAll, h, hua]
    simp [getVal_setKey]
  · intro cf hi k h hk
    rw [mergeHeaders_eq_setAll, getVal_setAll, h]
    cases hcase : cf.config.userAgent with
    | none => simp
    | some u =>
      have hne : ¬ k = "User-Agent" := fun he => by
        have := hk he
        rw [hcase] at this
        exact Option.noConfusion this
      simp only [getVal_setKey]
      rw [if_neg (fun he => hne he.symm)]
  · decide

/-- C6 (witness): the colliding key X-A resolves to the per-call value 2,
via the general per-call-wins part applied at the concrete example. -/
theorem mergeHeaders_precedence_witness :
    getVal
        (ConfigurableFetch.mergeHeaders
          ⟨⟨FetchBackend.builtIn, 300000, ".cache", 104857600, some "UA1",
              [("X-A", "1")]⟩, true, true⟩
          (some (HeadersInput.recordForm [("X-A", "2"), ("User-Agent", "UA2")])))
        "X-A" = some "2" :=
  mergeHeaders_precedence.1
    ⟨⟨FetchBackend.builtIn, 300000, ".cache", 104857600, some "UA1",
        [("X-A", "1")]⟩, true, true⟩
    (HeadersInput.recordForm [("X-A", "2"), ("User-Agent", "UA2")])
    "X-A" "2" (by decide)

/-- C7: a call that requests cache-bypass while the effective backend (the
per-call override or else the configured default) is a cached one invokes
the built-in fetch function for that call, never one of the cache
backends, and leaves the instance (in particular the configured default
strategy) unchanged. -/
theorem fetchDispatch_noCache_forces_builtIn (cf : ConfigurableFetch)
    (options : RequestOptions) (h1 : options.noCache = true)
    (h2 : options.backend.getD cf.config.backend = FetchBackend.cacheMemory ∨
        options.backend.getD cf.config.backend = FetchBackend.cacheDisk) :
    (cf.fetchDispatch options).1.invoked = FetchFn.builtInFetch ∧
    (cf.fetchDispatch options).1.invoked ≠ FetchFn.memoryCacheFetch ∧
    (cf.fetchDispatch options).1.invoked ≠ FetchFn.diskCacheFetch ∧
    (cf.fetchDispatch options).2 = cf := by
  simp only [ConfigurableFetch.fetchDispatch]
  rw [if_pos ⟨h1, h2⟩]
  exact ⟨rfl, by simp [ConfigurableFetch.getFetchFunction],
    by simp [ConfigurableFetch.getFetchFunction], rfl⟩

/-- C7 (witness): with the memory-cached strategy configured and both
caches initialized, a noCache call invokes the built-in fetch and leaves
the instance unchanged. -/
theorem fetchDispatch_noCache_forces_builtIn_witness :
    (ConfigurableFetch.fetchDispatch
        ⟨⟨FetchBackend.cacheMemory, 300000, ".cache", 104857600, none, []⟩,
          true, true⟩
        ⟨none, true⟩).1.invoked = FetchFn.builtInFetch ∧
    (ConfigurableFetch.fetchDispatch
        ⟨⟨FetchBackend.cacheMemory, 300000, ".cache", 104857600, none, []⟩,
          true, true⟩
        ⟨none, true⟩).1.invoked ≠ FetchFn.memoryCacheFetch ∧
    (ConfigurableFetch.fetchDispatch
        ⟨⟨FetchBackend.cacheMemory, 300000, ".cache", 104857600, none, []⟩,
          true, true⟩
        ⟨none, true⟩).1.invoked ≠ FetchFn.diskCacheFetch ∧
    (ConfigurableFetch.fetchDispatch
        ⟨⟨FetchBackend.cacheMemory, 300000, ".cache", 104857600, none, []⟩,
          true, true⟩
        ⟨none, true⟩).2
      = ⟨⟨FetchBackend.cacheMemory, 300000, ".cache", 104857600, none, []⟩,
          true, true⟩ :=
  fetchDispatch_noCache_forces_builtIn
    ⟨⟨FetchBackend.cacheMemory, 300000, ".cache", 104857600, none, []⟩,
      true, true⟩
    ⟨none, true⟩ rfl (Or.inl rfl)

/-- C8: updateConfig swaps in exactly the parse result of the merged
configuration when validation succeeds, and on validation failure it
raises the carried message while retaining the previous configuration
unchanged (merge, then validate, then swap, atomically). -/
theorem updateConfig_atomic (cf : ConfigurableFetch) (p : FetchConfigUpdate) :
    (∀ c, FetchConfigSchema.parse (mergeRaw cf.config.toRaw p) = Except.ok c →
        cf.updateConfig p = ({ cf with config := c }, none)) ∧
    (∀ e, FetchConfigSchema.parse (mergeRaw cf.config.toRaw p) = Except.error e →
        cf.updateConfig p = (cf, some e)) := by
  constructor
  · intro c h
    simp [ConfigurableFetch.updateConfig, h]
  · intro e h
    simp [ConfigurableFetch.updateConfig, h]

/-- C8 (witness): an update with a non-positive cacheTtl fails loudly and
keeps the previous configuration; a positive one is swapped in. -/
theorem updateConfig_atomic_witness :
    ConfigurableFetch.updateConfig
        ⟨⟨FetchBackend.builtIn, 300000, ".cache", 104857600, none, []⟩,
          true, true⟩
        { cacheTtl := some (-5) }
      = (⟨⟨FetchBackend.builtIn, 300000, ".cache", 104857600, none, []⟩,
            true, true⟩,
          some "cacheTtl: Number must be greater than 0") ∧
    ConfigurableFetch.updateConfig
        ⟨⟨FetchBackend.builtIn, 300000, ".cache", 104857600, none, []⟩,
          true, true⟩
        { cacheTtl := some 60000 }
      = (⟨⟨FetchBackend.builtIn, 60000, ".cache", 104857600, none, []⟩,
            true, true⟩, none) :=
  ⟨(updateConfig_atomic
      ⟨⟨FetchBackend.builtIn, 300000, ".cache", 104857600, none, []⟩,
        true, true⟩ { cacheTtl := some (-5) }).2 _ rfl,
    (updateConfig_atomic
      ⟨⟨FetchBackend.builtIn, 300000, ".cache", 104857600, none, []⟩,
        true, true⟩ { cacheTtl := some 60000 }).1 _ rfl⟩

/-- C9: every facade fetch call, on every strategy path including the
cache-bypass path, hands the caller a response it can safely read exactly
once: the non-bypass paths return the clone the facade makes, and the
bypass path returns the built-in fetch response, of which no second
internal holder exists. -/
theorem fetchDispatch_safely_readable (cf : ConfigurableFetch)
    (options : RequestOptions) :
    safelyReadableOnce (cf.fetchDispatch options).1 := by
  simp only [ConfigurableFetch.fetchDispatch]
  split
  · exact Or.inr rfl
  · exact Or.inl rfl

/-- C9 (witness): the bypass call on a memory-cached configuration is
safely readable once. -/
theorem fetchDispatch_safely_readable_witness :
    safelyReadableOnce
      ((ConfigurableFetch.fetchDispatch
          ⟨⟨FetchBackend.cacheMemory, 300000, ".cache", 104857600, none, []⟩,
            true, true⟩
          ⟨none, true⟩).1) :=
  fetchDispatch_safely_readable
    ⟨⟨FetchBackend.cacheMemory, 300000, ".cache", 104857600, none, []⟩,
      true, true⟩
    ⟨none, true⟩
